import Mathlib

/-! # LocationAgent: a shallow embedding of the HTTP backend

The Go sources embedded here are

* `src/models/model.go`        (`UserLocation`)
* `src/handlers/handler.go`    (`userLocations`, `GetSharedLocations`, `UpdateUserLocation`)
* `src/middleware/firebase.go` (`FirebaseAuth`)
* `src/routes/routes.go`       (`SetupRoutes`)
* `src/utils/token_generator.go` (`phoneRegex`, `ValidatePhoneNumber`)

Go strings are modelled by Lean strings (lists of Unicode code points).  Package
level variables and the external identity provider are threaded through an
explicit `World`.  Every call that leaves the function under study (the logger,
`firebaseApp.Auth`, `client.VerifyIDToken`, the `next` handler) is recorded in
a trace of `Event`s, so that "is called" and "is not called" are statements
about that trace.
-/

namespace LocationAgent

/-! ## Go standard library: `strings` -/

namespace strings

/-- Go `strings.Index(s, substr)`: the index of the first occurrence of
`substr` in `s`; `none` stands for Go's `-1`. -/
def Index : List Char → List Char → Option Nat
  | [], substr => if substr = [] then some 0 else none
  | c :: cs, substr =>
    if substr.isPrefixOf (c :: cs) then some 0
    else (Index cs substr).map (· + 1)

/-- Loop of `strings.Count` for a non-empty `substr`: the number of
non-overlapping occurrences.  The first argument bounds the number of
iterations (each one consumes at least one character). -/
def countLoop (substr : List Char) : Nat → List Char → Nat
  | 0, _ => 0
  | fuel + 1, s =>
    match Index s substr with
    | none => 0
    | some j => 1 + countLoop substr fuel (s.drop (j + substr.length))

/-- Go `strings.Count(s, substr)`: for an empty `substr` the number of code
points plus one. -/
def Count (s substr : List Char) : Nat :=
  if substr = [] then s.length + 1 else countLoop substr (s.length + 1) s

/-- The `for i := 0; i < n; i++` loop of `strings.Replace`.  `k` is the number
of iterations left, `i` the loop counter and `rest` is `s[start:]`; the value is
what the builder receives from this point on, the final `s[start:]` included. -/
def replaceLoop (old new : List Char) : Nat → Nat → List Char → List Char
  | 0, _, rest => rest
  | k + 1, i, rest =>
    let j : Nat :=
      if old = [] then (if 0 < i then min 1 rest.length else 0)
      else (Index rest old).getD 0
    rest.take j ++ new ++ replaceLoop old new k (i + 1) (rest.drop (j + old.length))

/-- Go `strings.Replace(s, old, new, n)`: a copy of `s` with the first `n`
non-overlapping instances of `old` replaced by `new`; `n < 0` lifts the limit. -/
def Replace (s old new : String) (n : Int) : String :=
  if old = new ∨ n = 0 then s
  else
    let m := Count s.data old.data
    if m = 0 then s
    else
      let n' : Nat := if n < 0 ∨ m < n.toNat then m else n.toNat
      String.mk (replaceLoop old.data new.data n' 0 s.data)

end strings

/-! ## Data model (`src/models/model.go`) -/

/-- A Go `float64`, given by its IEEE-754 bit pattern: sign bit, eleven
exponent bits, fifty-two fraction bits.  The program stores and copies such
values and hands them to the JSON encoder. -/
structure float64 where
  bits : Nat
deriving DecidableEq, Repr

/-- The sign bit. -/
def float64.signBit (f : float64) : Nat := (f.bits / 2 ^ 63) % 2

/-- The exponent field. -/
def float64.exponent (f : float64) : Nat := (f.bits / 2 ^ 52) % 2048

/-- The fraction field. -/
def float64.fraction (f : float64) : Nat := f.bits % 2 ^ 52

/-- Go `math.IsNaN(f)`. -/
def IsNaN (f : float64) : Bool :=
  f.exponent == 2047 && f.fraction != 0

/-- Go `math.IsInf(f, sign)`: positive infinity when `sign ≥ 0`, negative
infinity when `sign ≤ 0`. -/
def IsInf (f : float64) (sign : Int) : Bool :=
  (decide (0 ≤ sign) && (f.exponent == 2047 && f.fraction == 0 && f.signBit == 0)) ||
  (decide (sign ≤ 0) && (f.exponent == 2047 && f.fraction == 0 && f.signBit == 1))

/-- A finite number: neither an infinity nor a NaN. -/
def float64.finite (f : float64) : Bool :=
  !(IsInf f 0 || IsNaN f)

/-- The struct `models.UserLocation`. -/
structure UserLocation where
  UserID : String
  Latitude : float64
  Longitude : float64
  Timestamp : String
deriving DecidableEq, Repr

/-- A record whose latitude and longitude are finite numbers. -/
def UserLocation.finite (u : UserLocation) : Bool :=
  u.Latitude.finite && u.Longitude.finite

/-! ## Go standard library: `encoding/json` -/

/-- The float encoder of `encoding/json`: an infinity or a NaN is refused
with an `UnsupportedValueError`, given here by its message; `none` means the
value is encoded. -/
def floatEncoder (f : float64) : Option String :=
  if IsInf f 0 || IsNaN f then
    some ("json: unsupported value: " ++
      (if f.fraction != 0 then "NaN" else if f.signBit == 1 then "-Inf" else "+Inf"))
  else none

/-- The error, if any, of encoding a `UserLocation`: the fields are encoded in
declaration order and the first refusal ends the encoding. -/
def UserLocation.encodeError (u : UserLocation) : Option String :=
  match floatEncoder u.Latitude with
  | some e => some e
  | none => floatEncoder u.Longitude

/-! ## The web framework: requests, contexts, errors -/

/-- The part of `http.Request` the program reads.  `Header` is Go's
`map[string][]string` with canonical keys. -/
structure Request where
  Method : String
  Path : String
  Header : List (String × List String)
  Body : String
deriving DecidableEq, Repr

/-- Go `http.Header.Get`: the first value stored under the key, `""` when
there is none. -/
def Request.HeaderGet (r : Request) (key : String) : String :=
  match r.Header.lookup key with
  | some (v :: _) => v
  | _ => ""

/-- The Go value handed to `c.JSON` as the response body. -/
inductive Payload where
  | stringMap (fields : List (String × String))
  | userLocation (u : UserLocation)
  | userLocations (us : List UserLocation)
deriving DecidableEq, Repr

/-- The error, if any, of `json.Encoder.Encode` on the value: a slice is
encoded element by element. -/
def Payload.encodeError : Payload → Option String
  | Payload.stringMap _ => none
  | Payload.userLocation u => u.encodeError
  | Payload.userLocations us => us.findSome? UserLocation.encodeError

/-- What has been written to the response. -/
structure Response where
  Status : Nat
  Body : Payload
deriving DecidableEq, Repr

/-- The struct `echo.Context`: the request, the path parameters, the key/value
store of `c.Set` and `c.Get`, and the response written so far. -/
structure Context where
  request : Request
  pathParams : List (String × String)
  store : List (String × String)
  response : Option Response
deriving DecidableEq, Repr

/-- The method `c.Set(key, val)`. -/
def Context.Set (c : Context) (key val : String) : Context :=
  { c with store := (key, val) :: c.store.filter (fun kv => kv.1 ≠ key) }

/-- The method `c.Get(key)`. -/
def Context.Get (c : Context) (key : String) : Option String :=
  c.store.lookup key

/-- The method `c.Param(name)`. -/
def Context.Param (c : Context) (name : String) : String :=
  (c.pathParams.lookup name).getD ""

/-- A Go `error` value: an `*echo.HTTPError` or any other error, given by its
message. -/
inductive GoError where
  | HTTPError (Code : Nat) (Message : String)
  | other (msg : String)
deriving DecidableEq, Repr

/-- The function `echo.NewHTTPError(code, message)`. -/
def NewHTTPError (code : Nat) (message : String) : GoError :=
  GoError.HTTPError code message

def StatusOK : Nat := 200
def StatusCreated : Nat := 201
def StatusBadRequest : Nat := 400
def StatusUnauthorized : Nat := 401
def StatusNotFound : Nat := 404
def StatusInternalServerError : Nat := 500

/-! ## The identity provider -/

/-- The struct `auth.Token`; the program reads only `UID`. -/
structure Token where
  UID : String
deriving DecidableEq, Repr

/-- The struct `auth.Client`: `VerifyIDToken` is an outbound call, so its answer
depends on, and may change, the provider state `σ`.  An error is given by
its `%v` rendering. -/
structure Client (σ : Type) where
  VerifyIDToken : String → σ → Except String Token × σ

/-- The struct `firebase.App`: `Auth` hands out a client or fails. -/
structure App (σ : Type) where
  Auth : σ → Except String (Client σ)

/-- Package-level variables and the external provider. -/
structure World (σ : Type) where
  firebaseApp : App σ
  provider : σ
  userLocations : List UserLocation

/-- An observable call.  A `next` event carries the context the handler was
called with and the events of that call. -/
inductive Event where
  | log (line : String)
  | auth
  | verifyIDToken (token : String) (result : Except String Token)
  | next (c : Context) (inner : List Event)

/-- The result of running a handler: the returned `error` (`none` is `nil`),
the context and world it leaves, and the calls it made. -/
structure Outcome (σ : Type) where
  err : Option GoError
  ctx : Context
  world : World σ
  trace : List Event

/-- The type `echo.HandlerFunc`. -/
abbrev HandlerFunc (σ : Type) := Context → World σ → Outcome σ

/-- The type `echo.MiddlewareFunc`. -/
abbrev MiddlewareFunc (σ : Type) := HandlerFunc σ → HandlerFunc σ

/-- The method `c.JSON(code, i)`: the value is encoded first; when the encoder
refuses it nothing is written and its error is returned, otherwise status and
body are written and `nil` is returned.  A failure of the connection while
writing is outside the model. -/
def Context.JSON {σ : Type} (c : Context) (code : Nat) (i : Payload) (w : World σ) :
    Outcome σ :=
  match i.encodeError with
  | some e => { err := some (GoError.other e), ctx := c, world := w, trace := [] }
  | none =>
    { err := none, ctx := { c with response := some ⟨code, i⟩ }, world := w, trace := [] }

/-! ## `src/middleware/firebase.go` -/

/-- The middleware `FirebaseAuth`. -/
def FirebaseAuth {σ : Type} (next : HandlerFunc σ) : HandlerFunc σ := fun c w =>
  let authHeader := c.request.HeaderGet "Authorization"
  if authHeader = "" then
    { err := some (NewHTTPError StatusUnauthorized "missing authorization header"),
      ctx := c, world := w, trace := [Event.log "Missing authorization header"] }
  else
    let token := strings.Replace authHeader "Bearer " "" 1
    if token = "" then
      { err := some (NewHTTPError StatusUnauthorized "invalid token format"),
        ctx := c, world := w, trace := [Event.log "Invalid token format"] }
    else
      match w.firebaseApp.Auth w.provider with
      | .error err =>
        { err := some (NewHTTPError StatusInternalServerError "error getting Auth client"),
          ctx := c, world := w,
          trace := [Event.auth, Event.log ("Error getting Auth client: " ++ err)] }
      | .ok client =>
        -- Try to verify as an ID token first
        match client.VerifyIDToken token w.provider with
        | (.error err, p1) =>
          -- If ID token verification fails, try to verify as a custom token
          match client.VerifyIDToken token p1 with
          | (.error err2, p2) =>
            { err := some (NewHTTPError StatusUnauthorized ("invalid token: " ++ err2)),
              ctx := c, world := { w with provider := p2 },
              trace := [Event.auth,
                        Event.verifyIDToken token (.error err),
                        Event.log ("ID token verification failed: " ++ err),
                        Event.verifyIDToken token (.error err2),
                        Event.log ("Custom token verification failed: " ++ err2)] }
          | (.ok customToken, p2) =>
            let c1 := c.Set "userID" customToken.UID
            let o := next c1 { w with provider := p2 }
            { o with
              trace := [Event.auth,
                        Event.verifyIDToken token (.error err),
                        Event.log ("ID token verification failed: " ++ err),
                        Event.verifyIDToken token (.ok customToken),
                        Event.log ("Custom token verified for user: " ++ customToken.UID),
                        Event.next c1 o.trace] }
        | (.ok verifiedToken, p1) =>
          let c1 := c.Set "userID" verifiedToken.UID
          let o := next c1 { w with provider := p1 }
          { o with
            trace := [Event.auth,
                      Event.verifyIDToken token (.ok verifiedToken),
                      Event.next c1 o.trace] }

/-! ## `src/handlers/handler.go` -/

/-- The initial value of the package variable `userLocations`:
`37.7749`, `-122.4194`, `34.0522` and `-118.2437` as `float64` bit patterns. -/
def userLocations : List UserLocation :=
  [ { UserID := "1", Latitude := ⟨4630513161858373072⟩, Longitude := ⟨13861686953232628816⟩,
      Timestamp := "2025-02-21T10:00:00Z" },
    { UserID := "2", Latitude := ⟨4629989238410472692⟩, Longitude := ⟨13861393114467566145⟩,
      Timestamp := "2025-02-21T11:00:00Z" } ]

/-- The handler `GetSharedLocations`. -/
def GetSharedLocations {σ : Type} : HandlerFunc σ := fun c w =>
  -- Placeholder response
  c.JSON StatusOK (Payload.userLocations w.userLocations) w

/-- The handler `UpdateUserLocation`.  `Bind` is the framework's `c.Bind`, which
decodes the request into a zero-initialised `UserLocation` or fails. -/
def UpdateUserLocation {σ : Type} (Bind : Context → Except String UserLocation) :
    HandlerFunc σ := fun c w =>
  match Bind c with
  | .error _ => c.JSON StatusBadRequest (Payload.stringMap [("message", "Invalid input")]) w
  | .ok newUserLocation =>
    let w1 : World σ := { w with userLocations := w.userLocations ++ [newUserLocation] }
    c.JSON StatusCreated (Payload.userLocation newUserLocation) w1

/-! ## The framework's router -/

/-- A registered route. -/
structure Route (σ : Type) where
  Method : String
  Path : String
  Handler : HandlerFunc σ

/-- The struct `echo.Echo`, reduced to its route table. -/
structure Echo (σ : Type) where
  routes : List (Route σ)

/-- The constructor `echo.New()`. -/
def Echo.New {σ : Type} : Echo σ := { routes := [] }

/-- The method `e.GET(path, h)`. -/
def Echo.GET {σ : Type} (e : Echo σ) (path : String) (h : HandlerFunc σ) : Echo σ :=
  { routes := e.routes ++ [{ Method := "GET", Path := path, Handler := h }] }

/-- The struct `echo.Group`: a path prefix and middleware in front of the
routes registered through it. -/
structure Group (σ : Type) where
  echo : Echo σ
  pfx : String
  middleware : List (MiddlewareFunc σ)

/-- The method `e.Group(prefix)`. -/
def Echo.Group {σ : Type} (e : Echo σ) (pfx : String) : Group σ :=
  { echo := e, pfx := pfx, middleware := [] }

/-- The method `g.Use(m)`: the middleware is put in front of the routes
registered through the group afterwards. -/
def Group.Use {σ : Type} (g : Group σ) (m : MiddlewareFunc σ) : Group σ :=
  { g with middleware := g.middleware ++ [m] }

/-- The framework's `applyMiddleware`: the first middleware is outermost. -/
def applyMiddleware {σ : Type} (h : HandlerFunc σ) (ms : List (MiddlewareFunc σ)) :
    HandlerFunc σ :=
  ms.foldr (fun m acc => m acc) h

/-- The method `g.GET(path, h)`. -/
def Group.GET {σ : Type} (g : Group σ) (path : String) (h : HandlerFunc σ) : Group σ :=
  { g with echo := g.echo.GET (g.pfx ++ path) (applyMiddleware h g.middleware) }

/-- The segments of a path between `/` characters. -/
def splitPath : List Char → List (List Char)
  | [] => [[]]
  | c :: cs =>
    match splitPath cs with
    | [] => [[]]
    | seg :: segs => if c = '/' then [] :: seg :: segs else (c :: seg) :: segs

/-- Match the segments of a route pattern against those of a request path; a
pattern segment `:name` binds the path parameter `name`. -/
def matchSegments : List (List Char) → List (List Char) → Option (List (String × String))
  | [], [] => some []
  | p :: ps, seg :: ss =>
    match p with
    | ':' :: name => (matchSegments ps ss).map (fun l => (String.mk name, String.mk seg) :: l)
    | _ => if p = seg then matchSegments ps ss else none
  | _, _ => none

/-- The first route with the request's method whose pattern matches the path. -/
def findRoute {σ : Type} : List (Route σ) → String → String →
    Option (Route σ × List (String × String))
  | [], _, _ => none
  | r :: rs, method, path =>
    if r.Method = method then
      match matchSegments (splitPath r.Path.data) (splitPath path.data) with
      | some params => some (r, params)
      | none => findRoute rs method path
    else findRoute rs method path

/-- The framework's `DefaultHTTPErrorHandler`: an error returned by a handler
becomes a JSON response, unless a response was already written. -/
def DefaultHTTPErrorHandler (err : GoError) (c : Context) : Context :=
  match c.response with
  | some _ => c
  | none =>
    match err with
    | GoError.HTTPError code msg =>
      { c with response := some ⟨code, Payload.stringMap [("message", msg)]⟩ }
    | GoError.other _ =>
      { c with response := some ⟨StatusInternalServerError,
                                  Payload.stringMap [("message", "Internal Server Error")]⟩ }

/-- The method `e.ServeHTTP`: route the request, run the handler, and turn a
returned error into a response. -/
def Echo.ServeHTTP {σ : Type} (e : Echo σ) (r : Request) (w : World σ) : Outcome σ :=
  let c : Context := { request := r, pathParams := [], store := [], response := none }
  match findRoute e.routes r.Method r.Path with
  | none =>
    { err := none, ctx := DefaultHTTPErrorHandler (NewHTTPError StatusNotFound "Not Found") c,
      world := w, trace := [] }
  | some (route, params) =>
    let o := route.Handler { c with pathParams := params } w
    match o.err with
    | none => o
    | some err => { o with err := none, ctx := DefaultHTTPErrorHandler err o.ctx }

/-! ## `src/routes/routes.go` -/

/-- The function `SetupRoutes`. -/
def SetupRoutes {σ : Type} (e : Echo σ) : Echo σ :=
  -- Health check endpoint
  let e := e.GET "/health" (fun c w =>
    c.JSON StatusOK (Payload.stringMap [("status", "healthy")]) w)
  -- Protected routes
  let api := e.Group "/api"
  let api := api.Use FirebaseAuth
  let api := api.GET "/sharedlocations/:userId" GetSharedLocations
  api.echo

/-! ## Go standard library: `regexp` -/

/-- The syntax tree of a regular expression (Go `regexp/syntax`), for the
operators that occur in the program. -/
inductive Regex where
  | BeginText
  | EndText
  | Literal (c : Char)
  | CharClass (ranges : List (Char × Char))
  | Concat (r₁ r₂ : Regex)
  | Repeat (min max : Nat) (r : Regex)

/-- A position in the text: the number of characters before it and the
characters from it on. -/
abbrev Pos := Nat × List Char

/-- Membership in a character class given by inclusive ranges. -/
def inClass (ranges : List (Char × Char)) (c : Char) : Bool :=
  ranges.any (fun r => r.1.toNat ≤ c.toNat && c.toNat ≤ r.2.toNat)

/-- All positions reached by between `min` and `max` consecutive matches of
`f`, longest first. -/
def repeatRun (f : Pos → List Pos) : Nat → Nat → Pos → List Pos
  | 0, 0, st => [st]
  | _ + 1, 0, _ => []
  | 0, max + 1, st => (f st).flatMap (repeatRun f 0 max) ++ [st]
  | min + 1, max + 1, st => (f st).flatMap (repeatRun f min max)

/-- All positions at which a match of the expression that starts at the given
position can end. -/
def Regex.run : Regex → Pos → List Pos
  | Regex.BeginText, st => if st.1 = 0 then [st] else []
  | Regex.EndText, st => if st.2 = [] then [st] else []
  | Regex.Literal c, st =>
    match st.2 with
    | d :: rest => if d = c then [(st.1 + 1, rest)] else []
    | [] => []
  | Regex.CharClass ranges, st =>
    match st.2 with
    | d :: rest => if inClass ranges d then [(st.1 + 1, rest)] else []
    | [] => []
  | Regex.Concat r₁ r₂, st => (Regex.run r₁ st).flatMap (Regex.run r₂)
  | Regex.Repeat min max r, st => repeatRun (Regex.run r) min max st

/-- Whether the expression matches starting at some position of the text. -/
def matchFrom (re : Regex) : Nat → List Char → Bool
  | n, [] => !(re.run (n, [])).isEmpty
  | n, c :: cs => !(re.run (n, c :: cs)).isEmpty || matchFrom re (n + 1) cs

/-- Go `(*Regexp).MatchString`: whether the text contains a match. -/
def Regex.MatchString (re : Regex) (s : String) : Bool :=
  matchFrom re 0 s.data

/-! ## `src/utils/token_generator.go` -/

/-- The variable `phoneRegex`: the pattern `^\+[1-9]\d{1,14}$`. -/
def phoneRegex : Regex :=
  Regex.Concat Regex.BeginText
    (Regex.Concat (Regex.Literal '+')
      (Regex.Concat (Regex.CharClass [('1', '9')])
        (Regex.Concat (Regex.Repeat 1 14 (Regex.CharClass [('0', '9')]))
          Regex.EndText)))

/-- The function `ValidatePhoneNumber`: `none` is the `nil` error. -/
def ValidatePhoneNumber (phoneNumber : String) : Option String :=
  if !phoneRegex.MatchString phoneNumber then
    some "invalid phone number format"
  else none

/-- The E.164 shape in words: `+`, one digit `1`-`9`, then between 1 and 14
digits `0`-`9`, and nothing else. -/
def isE164 : List Char → Bool
  | '+' :: d :: ds =>
    ('1'.toNat ≤ d.toNat && d.toNat ≤ '9'.toNat) &&
    (1 ≤ ds.length && ds.length ≤ 14) &&
    ds.all (fun c => '0'.toNat ≤ c.toNat && c.toNat ≤ '9'.toNat)
  | _ => false

/-! ## Reading a trace -/

/-- The tokens passed to `VerifyIDToken`, in call order. -/
def verifyTokens : List Event → List String
  | [] => []
  | Event.verifyIDToken token _ :: es => token :: verifyTokens es
  | _ :: es => verifyTokens es

/-- The contexts the `next` handler was invoked with, in call order. -/
def nextContexts : List Event → List Context
  | [] => []
  | Event.next c _ :: es => c :: nextContexts es
  | _ :: es => nextContexts es

/-! ## Sample providers, worlds and requests -/

/-- A provider that accepts every token and reports it as the user id. -/
def acceptAll : Client Unit :=
  { VerifyIDToken := fun token p => (.ok { UID := token }, p) }

/-- A provider that rejects every token. -/
def rejectAll : Client Unit :=
  { VerifyIDToken := fun _ p => (.error "token rejected", p) }

/-- A provider whose first answer is an error (say, its key download timed
out) and which accepts from the second call on.  Its state counts the calls. -/
def flaky : Client Nat :=
  { VerifyIDToken := fun token calls =>
      if calls = 0 then (.error "failed to fetch keys", 1)
      else (.ok { UID := token }, calls + 1) }

/-- The world after start-up: an application handing out `client`, the
provider in state `p`, and the seeded store. -/
def worldOf {σ : Type} (client : Client σ) (p : σ) : World σ :=
  { firebaseApp := { Auth := fun _ => .ok client }, provider := p,
    userLocations := userLocations }

/-- A record whose latitude is the NaN that Go's `strconv.ParseFloat` returns
for the text `NaN`. -/
def nanLocation : UserLocation :=
  { UserID := "9", Latitude := ⟨9221120237041090561⟩, Longitude := ⟨0⟩, Timestamp := "" }

/-- A record with finite coordinates. -/
def sampleLocation : UserLocation :=
  { UserID := "7", Latitude := ⟨0⟩, Longitude := ⟨0⟩, Timestamp := "" }

/-- A fresh context for a `GET /api/sharedlocations/1` request with the given
`Authorization` header values; with no value the header is absent. -/
def contextWith (authorization : List String) : Context :=
  { request := { Method := "GET", Path := "/api/sharedlocations/1",
                 Header := match authorization with
                   | [] => []
                   | vs => [("Authorization", vs)],
                 Body := "" },
    pathParams := [("userId", "1")], store := [], response := none }

/-! ## Theorems -/

theorem Context.Get_Set (c : Context) (key val : String) :
    (c.Set key val).Get key = some val := by
  simp [Context.Set, Context.Get, List.lookup]

/-- C2: with an empty `Authorization` header value the middleware returns
HTTP 401 "missing authorization header", leaves context and world untouched, and
its only call is one log line: no verifier call, no call of `next`. -/
theorem FirebaseAuth_missing_header {σ : Type} (next : HandlerFunc σ) (c : Context)
    (w : World σ) (h : c.request.HeaderGet "Authorization" = "") :
    (FirebaseAuth next c w).err
        = some (GoError.HTTPError 401 "missing authorization header") ∧
    (FirebaseAuth next c w).ctx = c ∧
    (FirebaseAuth next c w).world = w ∧
    (FirebaseAuth next c w).trace = [Event.log "Missing authorization header"] ∧
    verifyTokens (FirebaseAuth next c w).trace = [] ∧
    nextContexts (FirebaseAuth next c w).trace = [] := by
  simp [FirebaseAuth, h, NewHTTPError, StatusUnauthorized, verifyTokens, nextContexts]

theorem FirebaseAuth_missing_header_witness :
    (contextWith []).request.HeaderGet "Authorization" = "" ∧
    ((FirebaseAuth GetSharedLocations (contextWith []) (worldOf acceptAll ())).err
        = some (GoError.HTTPError 401 "missing authorization header") ∧
    (FirebaseAuth GetSharedLocations (contextWith []) (worldOf acceptAll ())).ctx
        = contextWith [] ∧
    (FirebaseAuth GetSharedLocations (contextWith []) (worldOf acceptAll ())).world
        = worldOf acceptAll () ∧
    (FirebaseAuth GetSharedLocations (contextWith []) (worldOf acceptAll ())).trace
        = [Event.log "Missing authorization header"] ∧
    verifyTokens (FirebaseAuth GetSharedLocations (contextWith []) (worldOf acceptAll ())).trace
        = [] ∧
    nextContexts (FirebaseAuth GetSharedLocations (contextWith []) (worldOf acceptAll ())).trace
        = []) :=
  ⟨by decide, FirebaseAuth_missing_header GetSharedLocations (contextWith [])
      (worldOf acceptAll ()) (by decide)⟩

theorem strings.Index_some {sub : List Char} :
    ∀ {s : List Char} {j : Nat}, strings.Index s sub = some j →
      ∃ pre post, s = pre ++ sub ++ post ∧ pre.length = j := by
  intro s
  induction s with
  | nil =>
    intro j h
    by_cases hs : sub = []
    · subst hs
      simp [strings.Index] at h
      exact ⟨[], [], by simp, h⟩
    · simp [strings.Index, hs] at h
  | cons c cs ih =>
    intro j h
    unfold strings.Index at h
    by_cases hp : sub.isPrefixOf (c :: cs) = true
    · rw [if_pos hp] at h
      obtain ⟨t, ht⟩ := List.isPrefixOf_iff_prefix.mp hp
      refine ⟨[], t, by simpa using ht.symm, ?_⟩
      simpa using h
    · rw [if_neg hp] at h
      cases hi : strings.Index cs sub with
      | none => simp [hi] at h
      | some k =>
        simp [hi] at h
        obtain ⟨pre, post, hcs, hlen⟩ := ih hi
        refine ⟨c :: pre, post, by simp [hcs], ?_⟩
        simp [hlen, h]

theorem strings.Index_append (sub t : List Char) :
    strings.Index (sub ++ t) sub = some 0 := by
  cases hs : sub ++ t with
  | nil =>
    have : sub = [] := by
      cases sub with
      | nil => rfl
      | cons a l => simp at hs
    simp [strings.Index, this]
  | cons c cs =>
    have hp : sub.isPrefixOf (c :: cs) = true := by
      rw [← hs]; exact List.isPrefixOf_iff_prefix.mpr ⟨t, rfl⟩
    simp [strings.Index, hp]

/-- One replacement of a non-empty `old`: the first occurrence, wherever it
is, gives way to `new`. -/
theorem strings.Replace_one (s old new : String) (hne : old ≠ new) (hold : old.data ≠ []) :
    strings.Replace s old new 1 =
      match strings.Index s.data old.data with
      | none => s
      | some j => String.mk (s.data.take j ++ new.data ++ s.data.drop (j + old.data.length)) := by
  cases hi : strings.Index s.data old.data with
  | none =>
    simp [strings.Replace, hne, strings.Count, hold, strings.countLoop, hi]
  | some j =>
    have hm : strings.Count s.data old.data
        = 1 + strings.countLoop old.data s.data.length (s.data.drop (j + old.data.length)) := by
      simp [strings.Count, hold, strings.countLoop, hi]
    simp only [strings.Replace, hne, hm]
    simp [strings.replaceLoop, hold, hi]

/-- The token computed by the middleware from a header value. -/
theorem strings.Replace_bearer (h : String) :
    strings.Replace h "Bearer " "" 1 =
      match strings.Index h.data "Bearer ".data with
      | none => h
      | some j => String.mk (h.data.take j ++ h.data.drop (j + 7)) := by
  rw [strings.Replace_one h "Bearer " "" (by decide) (by decide)]
  cases strings.Index h.data "Bearer ".data <;> simp

/-- A header that starts with `"Bearer "` loses exactly that prefix. -/
theorem strings.Replace_bearer_leading (t : String) :
    strings.Replace ("Bearer " ++ t) "Bearer " "" 1 = t := by
  rw [strings.Replace_bearer]
  have hd : ("Bearer " ++ t).data = "Bearer ".data ++ t.data := by simp
  rw [hd, strings.Index_append]
  simp

/-- A non-empty header whose token is empty is exactly `"Bearer "`. -/
theorem strings.Replace_bearer_eq_empty (h : String) (hne : h ≠ "")
    (htok : strings.Replace h "Bearer " "" 1 = "") : h = "Bearer " := by
  rw [strings.Replace_bearer] at htok
  cases hi : strings.Index h.data "Bearer ".data with
  | none => simp [hi] at htok; exact absurd htok hne
  | some j =>
    obtain ⟨pre, post, hs, hlen⟩ := strings.Index_some hi
    simp only [hi] at htok
    have hdata : h.data.take j ++ h.data.drop (j + 7) = [] := by
      have := congrArg String.data htok
      simpa using this
    have h7 : "Bearer ".data.length = 7 := by decide
    rw [hs] at hdata
    have ht : (pre ++ "Bearer ".data ++ post).take j = pre := by
      rw [List.append_assoc, List.take_left' hlen]
    have hdr : (pre ++ "Bearer ".data ++ post).drop (j + 7) = post := by
      have : (pre ++ "Bearer ".data).length = j + 7 := by simp [hlen]
      rw [List.drop_left' this]
    rw [ht, hdr] at hdata
    have hpre : pre = [] := (List.append_eq_nil.mp hdata).1
    have hpost : post = [] := (List.append_eq_nil.mp hdata).2
    subst hpre hpost
    apply String.ext
    simpa using hs

/-- The middleware past its two header checks and the client lookup. -/
theorem FirebaseAuth_verify_step {σ : Type} (next : HandlerFunc σ) (c : Context) (w : World σ)
    (client : Client σ)
    (hHeader : c.request.HeaderGet "Authorization" ≠ "")
    (hToken : strings.Replace (c.request.HeaderGet "Authorization") "Bearer " "" 1 ≠ "")
    (hAuth : w.firebaseApp.Auth w.provider = .ok client) :
    FirebaseAuth next c w =
      (let token := strings.Replace (c.request.HeaderGet "Authorization") "Bearer " "" 1
       match client.VerifyIDToken token w.provider with
        | (.error err, p1) =>
          match client.VerifyIDToken token p1 with
          | (.error err2, p2) =>
            { err := some (NewHTTPError StatusUnauthorized ("invalid token: " ++ err2)),
              ctx := c, world := { w with provider := p2 },
              trace := [Event.auth,
                        Event.verifyIDToken token (.error err),
                        Event.log ("ID token verification failed: " ++ err),
                        Event.verifyIDToken token (.error err2),
                        Event.log ("Custom token verification failed: " ++ err2)] }
          | (.ok customToken, p2) =>
            let c1 := c.Set "userID" customToken.UID
            let o := next c1 { w with provider := p2 }
            { o with
              trace := [Event.auth,
                        Event.verifyIDToken token (.error err),
                        Event.log ("ID token verification failed: " ++ err),
                        Event.verifyIDToken token (.ok customToken),
                        Event.log ("Custom token verified for user: " ++ customToken.UID),
                        Event.next c1 o.trace] }
        | (.ok verifiedToken, p1) =>
          let c1 := c.Set "userID" verifiedToken.UID
          let o := next c1 { w with provider := p1 }
          { o with
            trace := [Event.auth,
                      Event.verifyIDToken token (.ok verifiedToken),
                      Event.next c1 o.trace] }) := by
  unfold FirebaseAuth
  simp only [hHeader, hToken, hAuth, if_false]

/-- C1: for a non-empty header with a non-empty token and an obtainable auth
client, `next` is invoked exactly when a verifier call on the token returned a
UID; that happens exactly when the first call accepts, or the first call fails
and the repeated call accepts; and then `next` is invoked once, on the context
with `"userID"` set to that UID, and its result is the middleware's result. -/
theorem FirebaseAuth_next_iff_verified {σ : Type} (next : HandlerFunc σ) (c : Context)
    (w : World σ) (client : Client σ)
    (hHeader : c.request.HeaderGet "Authorization" ≠ "")
    (hToken : strings.Replace (c.request.HeaderGet "Authorization") "Bearer " "" 1 ≠ "")
    (hAuth : w.firebaseApp.Auth w.provider = .ok client) :
    let token := strings.Replace (c.request.HeaderGet "Authorization") "Bearer " "" 1
    let out := FirebaseAuth next c w
    let first := client.VerifyIDToken token w.provider
    ((∃ c1 inner, Event.next c1 inner ∈ out.trace) ↔
        ∃ t, Event.verifyIDToken token (.ok t) ∈ out.trace) ∧
    (∀ t, Event.verifyIDToken token (.ok t) ∈ out.trace ↔
        (first.1 = .ok t ∨
          ((∃ e, first.1 = .error e) ∧ (client.VerifyIDToken token first.2).1 = .ok t))) ∧
    (∀ t, Event.verifyIDToken token (.ok t) ∈ out.trace →
        ∃ p, (c.Set "userID" t.UID).Get "userID" = some t.UID ∧
          Event.next (c.Set "userID" t.UID)
              (next (c.Set "userID" t.UID) { w with provider := p }).trace ∈ out.trace ∧
          nextContexts out.trace = [c.Set "userID" t.UID] ∧
          out.err = (next (c.Set "userID" t.UID) { w with provider := p }).err ∧
          out.ctx = (next (c.Set "userID" t.UID) { w with provider := p }).ctx ∧
          out.world = (next (c.Set "userID" t.UID) { w with provider := p }).world) := by
  intro token out first
  have hstep := FirebaseAuth_verify_step next c w client hHeader hToken hAuth
  simp only [out, first]
  rw [hstep]
  rcases h1 : client.VerifyIDToken token w.provider with ⟨r1, p1⟩
  cases r1 with
  | ok t1 =>
    simp only [token] at h1
    simp only [h1]
    refine ⟨by simp, by intro t; simp [eq_comm], ?_⟩
    intro t ht
    have : t = t1 := by simpa using ht
    subst this
    exact ⟨p1, Context.Get_Set _ _ _, by simp, by simp [nextContexts], rfl, rfl, rfl⟩
  | error e1 =>
    simp only [token] at h1
    simp only [h1]
    rcases h2 : client.VerifyIDToken
        (strings.Replace (c.request.HeaderGet "Authorization") "Bearer " "" 1) p1 with ⟨r2, p2⟩
    cases r2 with
    | ok t2 =>
      simp only []
      refine ⟨by simp, by intro t; simp [eq_comm], ?_⟩
      intro t ht
      have : t = t2 := by simpa using ht
      subst this
      exact ⟨p2, Context.Get_Set _ _ _, by simp, by simp [nextContexts], rfl, rfl, rfl⟩
    | error e2 =>
      simp only []
      refine ⟨by simp, by intro t; simp, ?_⟩
      intro t ht
      simp at ht

theorem FirebaseAuth_next_iff_verified_witness :
    (contextWith ["Bearer abc"]).request.HeaderGet "Authorization" ≠ "" ∧
    strings.Replace ((contextWith ["Bearer abc"]).request.HeaderGet "Authorization")
        "Bearer " "" 1 ≠ "" ∧
    (worldOf acceptAll ()).firebaseApp.Auth (worldOf acceptAll ()).provider = .ok acceptAll ∧
    (let c := contextWith ["Bearer abc"]
     let w := worldOf acceptAll ()
     let next : HandlerFunc Unit := GetSharedLocations
     let token := strings.Replace (c.request.HeaderGet "Authorization") "Bearer " "" 1
     let out := FirebaseAuth next c w
     let first := acceptAll.VerifyIDToken token w.provider
     ((∃ c1 inner, Event.next c1 inner ∈ out.trace) ↔
        ∃ t, Event.verifyIDToken token (.ok t) ∈ out.trace) ∧
     (∀ t, Event.verifyIDToken token (.ok t) ∈ out.trace ↔
        (first.1 = .ok t ∨
          ((∃ e, first.1 = .error e) ∧ (acceptAll.VerifyIDToken token first.2).1 = .ok t))) ∧
     (∀ t, Event.verifyIDToken token (.ok t) ∈ out.trace →
        ∃ p, (c.Set "userID" t.UID).Get "userID" = some t.UID ∧
          Event.next (c.Set "userID" t.UID)
              (next (c.Set "userID" t.UID) { w with provider := p }).trace ∈ out.trace ∧
          nextContexts out.trace = [c.Set "userID" t.UID] ∧
          out.err = (next (c.Set "userID" t.UID) { w with provider := p }).err ∧
          out.ctx = (next (c.Set "userID" t.UID) { w with provider := p }).ctx ∧
          out.world = (next (c.Set "userID" t.UID) { w with provider := p }).world)) :=
  ⟨by decide, by decide, rfl,
    FirebaseAuth_next_iff_verified GetSharedLocations (contextWith ["Bearer abc"])
      (worldOf acceptAll ()) acceptAll (by decide) (by decide) rfl⟩

/-- C8: a header that is present but whose token is empty after the strip is
exactly `"Bearer "`, and the middleware then returns HTTP 401 "invalid token
format", leaves context and world untouched, and its only call is one log
line: no verifier call, no call of `next`. -/
theorem FirebaseAuth_empty_bearer {σ : Type} (next : HandlerFunc σ) (c : Context)
    (w : World σ)
    (hPresent : c.request.HeaderGet "Authorization" ≠ "")
    (hEmpty : strings.Replace (c.request.HeaderGet "Authorization") "Bearer " "" 1 = "") :
    c.request.HeaderGet "Authorization" = "Bearer " ∧
    (FirebaseAuth next c w).err = some (GoError.HTTPError 401 "invalid token format") ∧
    (FirebaseAuth next c w).ctx = c ∧
    (FirebaseAuth next c w).world = w ∧
    (FirebaseAuth next c w).trace = [Event.log "Invalid token format"] ∧
    verifyTokens (FirebaseAuth next c w).trace = [] ∧
    nextContexts (FirebaseAuth next c w).trace = [] := by
  refine ⟨strings.Replace_bearer_eq_empty _ hPresent hEmpty, ?_⟩
  simp [FirebaseAuth, hPresent, hEmpty, NewHTTPError, StatusUnauthorized, verifyTokens,
    nextContexts]

theorem FirebaseAuth_empty_bearer_witness :
    (contextWith ["Bearer "]).request.HeaderGet "Authorization" ≠ "" ∧
    strings.Replace ((contextWith ["Bearer "]).request.HeaderGet "Authorization")
        "Bearer " "" 1 = "" ∧
    ((contextWith ["Bearer "]).request.HeaderGet "Authorization" = "Bearer " ∧
    (FirebaseAuth GetSharedLocations (contextWith ["Bearer "]) (worldOf acceptAll ())).err
        = some (GoError.HTTPError 401 "invalid token format") ∧
    (FirebaseAuth GetSharedLocations (contextWith ["Bearer "]) (worldOf acceptAll ())).ctx
        = contextWith ["Bearer "] ∧
    (FirebaseAuth GetSharedLocations (contextWith ["Bearer "]) (worldOf acceptAll ())).world
        = worldOf acceptAll () ∧
    (FirebaseAuth GetSharedLocations (contextWith ["Bearer "]) (worldOf acceptAll ())).trace
        = [Event.log "Invalid token format"] ∧
    verifyTokens
        (FirebaseAuth GetSharedLocations (contextWith ["Bearer "]) (worldOf acceptAll ())).trace
        = [] ∧
    nextContexts
        (FirebaseAuth GetSharedLocations (contextWith ["Bearer "]) (worldOf acceptAll ())).trace
        = []) :=
  ⟨by decide, by decide,
    FirebaseAuth_empty_bearer GetSharedLocations (contextWith ["Bearer "])
      (worldOf acceptAll ()) (by decide) (by decide)⟩

/-- C4, at the header `Basic Bearer abc`: the header does not start with
`"Bearer "`, yet the token handed to the verifier is `Basic abc`, not the
header itself. -/
theorem FirebaseAuth_strips_inner_bearer :
    "Bearer ".data.isPrefixOf
        ((contextWith ["Basic Bearer abc"]).request.HeaderGet "Authorization").data = false ∧
    verifyTokens
        (FirebaseAuth GetSharedLocations (contextWith ["Basic Bearer abc"])
          (worldOf acceptAll ())).trace = ["Basic abc"] ∧
    nextContexts
        (FirebaseAuth GetSharedLocations (contextWith ["Basic Bearer abc"])
          (worldOf acceptAll ())).trace
      = [(contextWith ["Basic Bearer abc"]).Set "userID" "Basic abc"] := by
  decide

/-- C5, with a provider whose first answer is an error and whose second
answer is a UID: after the failed call the verifier is called a second time on
the same token, and the request is not rejected: `next` runs and answers
200. -/
theorem FirebaseAuth_repeats_VerifyIDToken :
    (flaky.VerifyIDToken "abc" 0).1 = .error "failed to fetch keys" ∧
    verifyTokens
        (FirebaseAuth GetSharedLocations (contextWith ["Bearer abc"]) (worldOf flaky 0)).trace
      = ["abc", "abc"] ∧
    ¬ (verifyTokens
        (FirebaseAuth GetSharedLocations (contextWith ["Bearer abc"])
          (worldOf flaky 0)).trace).length ≤ 1 ∧
    (FirebaseAuth GetSharedLocations (contextWith ["Bearer abc"]) (worldOf flaky 0)).err
      = none ∧
    nextContexts
        (FirebaseAuth GetSharedLocations (contextWith ["Bearer abc"]) (worldOf flaky 0)).trace
      = [(contextWith ["Bearer abc"]).Set "userID" "abc"] ∧
    (FirebaseAuth GetSharedLocations (contextWith ["Bearer abc"])
        (worldOf flaky 0)).ctx.response
      = some ⟨200, Payload.userLocations userLocations⟩ :=
  ⟨rfl, by decide, by decide, by decide, by decide, by decide⟩

theorem floatEncoder_finite (f : float64) (h : f.finite = true) : floatEncoder f = none := by
  unfold float64.finite at h
  unfold floatEncoder
  cases hb : (IsInf f 0 || IsNaN f) with
  | true => simp [hb] at h
  | false => simp

theorem UserLocation.encodeError_finite (u : UserLocation) (h : u.finite = true) :
    u.encodeError = none := by
  unfold UserLocation.finite at h
  simp only [Bool.and_eq_true] at h
  simp [UserLocation.encodeError, floatEncoder_finite _ h.1, floatEncoder_finite _ h.2]

theorem Payload.encodeError_userLocations (us : List UserLocation)
    (h : ∀ u ∈ us, u.finite = true) : (Payload.userLocations us).encodeError = none := by
  unfold Payload.encodeError
  induction us with
  | nil => rfl
  | cons u us ih =>
    have hu := UserLocation.encodeError_finite u (h u (List.mem_cons_self u us))
    simp only [List.findSome?, hu]
    exact ih (fun v hv => h v (List.mem_cons_of_mem u hv))

/-- C7 as stated fails: with a NaN latitude in the store the handler returns
the encoder's error and writes no response, and the router answers the
authenticated request with status 500. -/
theorem GetSharedLocations_nan_store :
    (GetSharedLocations (contextWith [])
        { worldOf acceptAll () with userLocations := [nanLocation] }).err
      = some (GoError.other "json: unsupported value: NaN") ∧
    (GetSharedLocations (contextWith [])
        { worldOf acceptAll () with userLocations := [nanLocation] }).ctx.response = none ∧
    ((SetupRoutes Echo.New).ServeHTTP (contextWith ["Bearer abc"]).request
        { worldOf acceptAll () with userLocations := [nanLocation] }).ctx.response
      = some ⟨500, Payload.stringMap [("message", "Internal Server Error")]⟩ := by
  decide

/-- C7, amended: for every context (path parameters included) and every
store whose records have finite coordinates, `GetSharedLocations` returns
`nil`, writes status 200 with the whole store in stored order as body, makes no
outside call, and leaves the world unchanged; the response does not depend on
the path parameters. -/
theorem GetSharedLocations_returns_store {σ : Type} (c : Context) (w : World σ)
    (hFinite : ∀ u ∈ w.userLocations, u.finite = true) :
    (GetSharedLocations c w).err = none ∧
    (GetSharedLocations c w).ctx.response
      = some ⟨200, Payload.userLocations w.userLocations⟩ ∧
    (GetSharedLocations c w).world = w ∧
    (GetSharedLocations c w).trace = [] ∧
    (∀ params : List (String × String),
      (GetSharedLocations { c with pathParams := params } w).ctx.response
        = (GetSharedLocations c w).ctx.response ∧
      (GetSharedLocations { c with pathParams := params } w).world = w) := by
  have he := Payload.encodeError_userLocations _ hFinite
  simp [GetSharedLocations, Context.JSON, StatusOK, he]

theorem GetSharedLocations_returns_store_witness :
    (∀ u ∈ (worldOf acceptAll ()).userLocations, u.finite = true) ∧
    (let c := contextWith ["Bearer abc"]
     let w := worldOf acceptAll ()
     (GetSharedLocations c w).err = none ∧
     (GetSharedLocations c w).ctx.response
       = some ⟨200, Payload.userLocations w.userLocations⟩ ∧
     (GetSharedLocations c w).world = w ∧
     (GetSharedLocations c w).trace = [] ∧
     (∀ params : List (String × String),
       (GetSharedLocations { c with pathParams := params } w).ctx.response
         = (GetSharedLocations c w).ctx.response ∧
       (GetSharedLocations { c with pathParams := params } w).world = w)) :=
  ⟨by decide,
    GetSharedLocations_returns_store (contextWith ["Bearer abc"]) (worldOf acceptAll ())
      (by decide)⟩

/-- C6 as stated fails: when the body decodes to a record with a NaN latitude
the record is appended to the store, but the handler returns the encoder's
error and no 201 response is written. -/
theorem UpdateUserLocation_nan_record :
    (UpdateUserLocation (fun _ => .ok nanLocation) (contextWith [])
        (worldOf acceptAll ())).world.userLocations = userLocations ++ [nanLocation] ∧
    (UpdateUserLocation (fun _ => .ok nanLocation) (contextWith [])
        (worldOf acceptAll ())).err
      = some (GoError.other "json: unsupported value: NaN") ∧
    (UpdateUserLocation (fun _ => .ok nanLocation) (contextWith [])
        (worldOf acceptAll ())).ctx.response = none := by
  decide

/-- C6, amended: when the body decodes to `r`, `UpdateUserLocation` leaves the
store equal to the old store followed by `r` (one element longer, every old
index holding its old record) and changes nothing else in the world; when the
coordinates of `r` are finite it returns `nil` and responds with status 201 and
body `r`. -/
theorem UpdateUserLocation_appends {σ : Type} (Bind : Context → Except String UserLocation)
    (c : Context) (w : World σ) (r : UserLocation) (hBind : Bind c = .ok r) :
    (UpdateUserLocation Bind c w).world.userLocations = w.userLocations ++ [r] ∧
    (UpdateUserLocation Bind c w).world.userLocations.length = w.userLocations.length + 1 ∧
    (∀ i, i < w.userLocations.length →
      (UpdateUserLocation Bind c w).world.userLocations[i]? = w.userLocations[i]?) ∧
    (UpdateUserLocation Bind c w).world.userLocations[w.userLocations.length]? = some r ∧
    (UpdateUserLocation Bind c w).world.firebaseApp = w.firebaseApp ∧
    (UpdateUserLocation Bind c w).world.provider = w.provider ∧
    (r.finite = true →
      (UpdateUserLocation Bind c w).err = none ∧
      (UpdateUserLocation Bind c w).ctx.response = some ⟨201, Payload.userLocation r⟩) := by
  have hworld : (UpdateUserLocation Bind c w).world
      = { w with userLocations := w.userLocations ++ [r] } := by
    simp only [UpdateUserLocation, hBind, Context.JSON]
    cases (Payload.userLocation r).encodeError <;> rfl
  rw [hworld]
  refine ⟨rfl, by simp, ?_, by simp, rfl, rfl, ?_⟩
  · intro i hi
    exact List.getElem?_append_left hi
  · intro hr
    have he : (Payload.userLocation r).encodeError = none :=
      UserLocation.encodeError_finite r hr
    simp [UpdateUserLocation, hBind, Context.JSON, StatusCreated, he]

theorem UpdateUserLocation_appends_witness :
    (fun _ : Context => (Except.ok sampleLocation : Except String UserLocation))
        (contextWith []) = .ok sampleLocation ∧
    sampleLocation.finite = true ∧
    (let Bind := fun _ : Context => (Except.ok sampleLocation : Except String UserLocation)
     let r := sampleLocation
     let c := contextWith []
     let w := worldOf acceptAll ()
     (UpdateUserLocation Bind c w).world.userLocations = w.userLocations ++ [r] ∧
     (UpdateUserLocation Bind c w).world.userLocations.length = w.userLocations.length + 1 ∧
     (∀ i, i < w.userLocations.length →
       (UpdateUserLocation Bind c w).world.userLocations[i]? = w.userLocations[i]?) ∧
     (UpdateUserLocation Bind c w).world.userLocations[w.userLocations.length]? = some r ∧
     (UpdateUserLocation Bind c w).world.firebaseApp = w.firebaseApp ∧
     (UpdateUserLocation Bind c w).world.provider = w.provider ∧
     (UpdateUserLocation Bind c w).err = none ∧
     (UpdateUserLocation Bind c w).ctx.response = some ⟨201, Payload.userLocation r⟩) :=
  have h := UpdateUserLocation_appends
    (fun _ : Context => (Except.ok sampleLocation : Except String UserLocation))
    (contextWith []) (worldOf acceptAll ()) sampleLocation rfl
  ⟨rfl, by decide, h.1, h.2.1, h.2.2.1, h.2.2.2.1, h.2.2.2.2.1, h.2.2.2.2.2.1,
    h.2.2.2.2.2.2 (by decide)⟩

/-- C3 as stated fails: appending a record equal to the first seeded record
to the seeded store makes the listing hold that record twice; and when the
store holds a record with a NaN latitude, no list is returned after a valid
record is appended. -/
theorem duplicate_record_listed_twice :
    (GetSharedLocations (contextWith [])
        (UpdateUserLocation
          (fun _ => .ok { UserID := "1", Latitude := ⟨4630513161858373072⟩,
                          Longitude := ⟨13861686953232628816⟩,
                          Timestamp := "2025-02-21T10:00:00Z" })
          (contextWith []) (worldOf acceptAll ())).world).ctx.response
      = some ⟨200, Payload.userLocations
          [ { UserID := "1", Latitude := ⟨4630513161858373072⟩,
              Longitude := ⟨13861686953232628816⟩, Timestamp := "2025-02-21T10:00:00Z" },
            { UserID := "2", Latitude := ⟨4629989238410472692⟩,
              Longitude := ⟨13861393114467566145⟩, Timestamp := "2025-02-21T11:00:00Z" },
            { UserID := "1", Latitude := ⟨4630513161858373072⟩,
              Longitude := ⟨13861686953232628816⟩, Timestamp := "2025-02-21T10:00:00Z" } ]⟩ ∧
    List.count
        ({ UserID := "1", Latitude := ⟨4630513161858373072⟩,
           Longitude := ⟨13861686953232628816⟩,
           Timestamp := "2025-02-21T10:00:00Z" } : UserLocation)
        (UpdateUserLocation
          (fun _ => .ok { UserID := "1", Latitude := ⟨4630513161858373072⟩,
                          Longitude := ⟨13861686953232628816⟩,
                          Timestamp := "2025-02-21T10:00:00Z" })
          (contextWith []) (worldOf acceptAll ())).world.userLocations = 2 ∧
    sampleLocation.finite = true ∧
    (GetSharedLocations (contextWith [])
        (UpdateUserLocation (fun _ => .ok sampleLocation) (contextWith [])
          { worldOf acceptAll () with userLocations := [nanLocation] }).world).err
      = some (GoError.other "json: unsupported value: NaN") ∧
    (GetSharedLocations (contextWith [])
        (UpdateUserLocation (fun _ => .ok sampleLocation) (contextWith [])
          { worldOf acceptAll () with userLocations := [nanLocation] }).world).ctx.response
      = none := by
  decide

/-- C3, amended: when the body decodes to a valid record `r` (finite
coordinates) and the stored records have finite coordinates, the listing after
`UpdateUserLocation` is the old store followed by `r`: `r` is its last
element, it occurs once more than before, and exactly once when the store held
no identical record. -/
theorem append_then_list {σ : Type} (Bind : Context → Except String UserLocation)
    (c c' : Context) (w : World σ) (r : UserLocation) (hBind : Bind c = .ok r)
    (hValid : r.finite = true) (hStore : ∀ u ∈ w.userLocations, u.finite = true) :
    (GetSharedLocations c' (UpdateUserLocation Bind c w).world).err = none ∧
    (GetSharedLocations c' (UpdateUserLocation Bind c w).world).ctx.response
      = some ⟨200, Payload.userLocations (w.userLocations ++ [r])⟩ ∧
    (w.userLocations ++ [r]).getLast? = some r ∧
    List.count r (w.userLocations ++ [r]) = List.count r w.userLocations + 1 ∧
    (r ∉ w.userLocations → List.count r (w.userLocations ++ [r]) = 1) := by
  have hr : (Payload.userLocation r).encodeError = none :=
    UserLocation.encodeError_finite r hValid
  have hall : ∀ u ∈ w.userLocations ++ [r], u.finite = true := by
    intro u hu
    rcases List.mem_append.mp hu with h | h
    · exact hStore u h
    · rw [List.mem_singleton.mp h]; exact hValid
  have hl := Payload.encodeError_userLocations _ hall
  simp [UpdateUserLocation, hBind, GetSharedLocations, Context.JSON, StatusOK, hr, hl]
  intro h
  exact List.count_eq_zero_of_not_mem h

theorem append_then_list_witness :
    (fun _ : Context => (Except.ok sampleLocation : Except String UserLocation))
        (contextWith []) = .ok sampleLocation ∧
    sampleLocation.finite = true ∧
    (∀ u ∈ (worldOf acceptAll ()).userLocations, u.finite = true) ∧
    (let Bind := fun _ : Context => (Except.ok sampleLocation : Except String UserLocation)
     let r := sampleLocation
     let c := contextWith []
     let w := worldOf acceptAll ()
     (GetSharedLocations c (UpdateUserLocation Bind c w).world).err = none ∧
     (GetSharedLocations c (UpdateUserLocation Bind c w).world).ctx.response
       = some ⟨200, Payload.userLocations (w.userLocations ++ [r])⟩ ∧
     (w.userLocations ++ [r]).getLast? = some r ∧
     List.count r (w.userLocations ++ [r]) = List.count r w.userLocations + 1 ∧
     (r ∉ w.userLocations → List.count r (w.userLocations ++ [r]) = 1)) :=
  ⟨rfl, by decide, by decide,
    append_then_list _ (contextWith []) (contextWith []) (worldOf acceptAll ()) _ rfl
      (by decide) (by decide)⟩

theorem FirebaseAuth_trace_ne_nil {σ : Type} (next : HandlerFunc σ) (c : Context)
    (w : World σ) : (FirebaseAuth next c w).trace ≠ [] := by
  unfold FirebaseAuth
  simp only []
  repeat' split
  all_goals simp

/-- C9: a `GET` request for `/health`, whatever its headers and whatever the
world, is answered with status 200 and body `{"status":"healthy"}`; the world
is unchanged and no call is recorded, whereas every run of `FirebaseAuth`
records at least one call: the middleware is not on this route. -/
theorem health_is_public {σ : Type} (r : Request) (w : World σ)
    (hMethod : r.Method = "GET") (hPath : r.Path = "/health") :
    ((SetupRoutes Echo.New).ServeHTTP r w).ctx.response
      = some ⟨200, Payload.stringMap [("status", "healthy")]⟩ ∧
    ((SetupRoutes Echo.New).ServeHTTP r w).err = none ∧
    ((SetupRoutes Echo.New).ServeHTTP r w).world = w ∧
    ((SetupRoutes Echo.New).ServeHTTP r w).trace = [] ∧
    (∀ (next : HandlerFunc σ) (c : Context) (w' : World σ),
      (FirebaseAuth next c w').trace ≠ []) := by
  have hseg : matchSegments (splitPath "/health".data) (splitPath "/health".data) = some [] := by
    decide
  refine ⟨?_, ?_, ?_, ?_, FirebaseAuth_trace_ne_nil⟩ <;>
    simp [Echo.ServeHTTP, SetupRoutes, Echo.New, Echo.GET, Echo.Group, Group.Use, Group.GET,
      findRoute, hMethod, hPath, hseg, Context.JSON, Payload.encodeError, StatusOK]

theorem health_is_public_witness :
    ({ Method := "GET", Path := "/health", Header := [], Body := "" } : Request).Method = "GET" ∧
    ({ Method := "GET", Path := "/health", Header := [], Body := "" } : Request).Path
      = "/health" ∧
    (let r : Request := { Method := "GET", Path := "/health", Header := [], Body := "" }
     let w := worldOf rejectAll ()
     ((SetupRoutes Echo.New).ServeHTTP r w).ctx.response
       = some ⟨200, Payload.stringMap [("status", "healthy")]⟩ ∧
     ((SetupRoutes Echo.New).ServeHTTP r w).err = none ∧
     ((SetupRoutes Echo.New).ServeHTTP r w).world = w ∧
     ((SetupRoutes Echo.New).ServeHTTP r w).trace = [] ∧
     (∀ (next : HandlerFunc Unit) (c : Context) (w' : World Unit),
       (FirebaseAuth next c w').trace ≠ [])) :=
  ⟨rfl, rfl, health_is_public _ (worldOf rejectAll ()) rfl rfl⟩

theorem run_CharClass_cons (cls : List (Char × Char)) (p : Nat) (d : Char) (rest : List Char) :
    Regex.run (Regex.CharClass cls) (p, d :: rest)
      = if inClass cls d then [(p + 1, rest)] else [] := by
  simp [Regex.run]

theorem run_CharClass_nil (cls : List (Char × Char)) (p : Nat) :
    Regex.run (Regex.CharClass cls) (p, []) = [] := by
  simp [Regex.run]

/-- A bounded repetition of a character class reaches the end of the text
exactly when the text has an admissible length and lies in the class. -/
theorem repeatRun_CharClass_end (cls : List (Char × Char)) :
    ∀ (max min p : Nat) (r : List Char),
      (∃ q, (q, []) ∈ repeatRun (Regex.run (Regex.CharClass cls)) min max (p, r)) ↔
        (min ≤ r.length ∧ r.length ≤ max ∧ ∀ c ∈ r, inClass cls c = true) := by
  intro max
  induction max with
  | zero =>
    intro min p r
    cases min with
    | zero =>
      cases r with
      | nil => simp [repeatRun]
      | cons d rest => simp [repeatRun]
    | succ m =>
      simp only [repeatRun, List.not_mem_nil, exists_false, false_iff, not_and]
      intro h1 h2
      omega
  | succ max ih =>
    intro min p r
    cases r with
    | nil =>
      cases min with
      | zero => simp [repeatRun, run_CharClass_nil]
      | succ m => simp [repeatRun, run_CharClass_nil]
    | cons d rest =>
      by_cases hd : inClass cls d = true
      · cases min with
        | zero =>
          have := ih 0 (p + 1) rest
          simp only [repeatRun, run_CharClass_cons, hd, if_true, List.flatMap_cons,
            List.flatMap_nil, List.append_nil, List.mem_append, List.mem_singleton,
            Prod.mk.injEq]
          simp only [exists_or, this]
          simp [hd]
        | succ m =>
          have := ih m (p + 1) rest
          simp only [repeatRun, run_CharClass_cons, hd, if_true, List.flatMap_cons,
            List.flatMap_nil, List.append_nil]
          rw [this]
          simp [hd]
      · cases min with
        | zero => simp [repeatRun, run_CharClass_cons, hd]
        | succ m => simp [repeatRun, run_CharClass_cons, hd]

theorem run_phoneRegex_pos (n : Nat) (cs : List Char) (hn : 0 < n) :
    Regex.run phoneRegex (n, cs) = [] := by
  have : n ≠ 0 := by omega
  simp [phoneRegex, Regex.run, this]

theorem matchFrom_phoneRegex_pos (cs : List Char) :
    ∀ n, 0 < n → matchFrom phoneRegex n cs = false := by
  induction cs with
  | nil => intro n hn; simp [matchFrom, run_phoneRegex_pos n [] hn]
  | cons c cs ih =>
    intro n hn
    simp [matchFrom, run_phoneRegex_pos n (c :: cs) hn, ih (n + 1) (by omega)]

/-- The words of the E.164 shape, spelled out. -/
theorem isE164_iff (cs : List Char) :
    isE164 cs = true ↔
      ∃ d ds, cs = '+' :: d :: ds ∧ '1'.toNat ≤ d.toNat ∧ d.toNat ≤ '9'.toNat ∧
        1 ≤ ds.length ∧ ds.length ≤ 14 ∧
        ∀ c ∈ ds, '0'.toNat ≤ c.toNat ∧ c.toNat ≤ '9'.toNat := by
  constructor
  · intro h
    unfold isE164 at h
    split at h
    · rename_i d ds
      simp only [Bool.and_eq_true, decide_eq_true_eq, List.all_eq_true] at h
      exact ⟨d, ds, rfl, h.1.1.1, h.1.1.2, h.1.2.1, h.1.2.2, h.2⟩
    · simp at h
  · rintro ⟨d, ds, rfl, h1, h2, h3, h4, h5⟩
    simp only [isE164, Bool.and_eq_true, decide_eq_true_eq, List.all_eq_true]
    exact ⟨⟨⟨h1, h2⟩, h3, h4⟩, h5⟩

theorem flatMap_EndText_nonempty (l : List Pos) :
    (!(l.flatMap (Regex.run Regex.EndText)).isEmpty) = true ↔ ∃ q, (q, []) ∈ l := by
  induction l with
  | nil => simp
  | cons st l ih =>
    obtain ⟨q, r⟩ := st
    cases r with
    | nil =>
      simp [Regex.run]
    | cons d rest =>
      simp only [List.flatMap_cons, Regex.run, List.mem_cons, Prod.mk.injEq, reduceCtorEq,
        and_false, false_or, if_false, List.nil_append]
      exact ih

theorem run_phoneRegex_tail (d : Char) (ds : List Char) :
    Regex.run phoneRegex (0, '+' :: d :: ds) =
      if inClass [('1', '9')] d then
        (repeatRun (Regex.run (Regex.CharClass [('0', '9')])) 1 14 (2, ds)).flatMap
          (Regex.run Regex.EndText)
      else [] := by
  by_cases hd : inClass [('1', '9')] d = true
  · simp [phoneRegex, Regex.run, hd]
  · simp [phoneRegex, Regex.run, hd]

theorem run_phoneRegex_zero (cs : List Char) :
    (!(Regex.run phoneRegex (0, cs)).isEmpty) = isE164 cs := by
  rw [Bool.eq_iff_iff]
  rw [isE164_iff]
  cases cs with
  | nil => simp [phoneRegex, Regex.run]
  | cons c t =>
    by_cases hc : c = '+'
    · subst hc
      cases t with
      | nil => simp [phoneRegex, Regex.run]
      | cons d ds =>
        rw [run_phoneRegex_tail]
        by_cases hd : inClass [('1', '9')] d = true
        · rw [if_pos hd, flatMap_EndText_nonempty, repeatRun_CharClass_end]
          simp only [inClass, List.any_cons, List.any_nil, Bool.or_false, Bool.and_eq_true,
            decide_eq_true_eq] at hd ⊢
          constructor
          · rintro ⟨h1, h2, h3⟩
            exact ⟨d, ds, rfl, hd.1, hd.2, h1, h2, h3⟩
          · rintro ⟨d', ds', heq, _, _, h1, h2, h3⟩
            simp only [List.cons.injEq, true_and] at heq
            obtain ⟨rfl, rfl⟩ := heq
            exact ⟨h1, h2, h3⟩
        · rw [if_neg hd]
          simp only [inClass, List.any_cons, List.any_nil, Bool.or_false, Bool.and_eq_true,
            decide_eq_true_eq] at hd
          simp only [List.isEmpty_nil, Bool.not_true, Bool.false_eq_true, false_iff]
          rintro ⟨d', ds', heq, h1, h2, _⟩
          simp only [List.cons.injEq, true_and] at heq
          obtain ⟨rfl, rfl⟩ := heq
          exact hd ⟨h1, h2⟩
    · have hrun : Regex.run phoneRegex (0, c :: t) = [] := by
        simp [phoneRegex, Regex.run, hc]
      rw [hrun]
      simp only [List.isEmpty_nil, Bool.not_true, Bool.false_eq_true, false_iff]
      rintro ⟨d', ds', heq, _⟩
      simp only [List.cons.injEq] at heq
      exact hc heq.1

/-- The regular expression and the E.164 shape agree on every string. -/
theorem MatchString_phoneRegex (s : String) :
    phoneRegex.MatchString s = isE164 s.data := by
  unfold Regex.MatchString
  cases hs : s.data with
  | nil =>
    simp only [matchFrom]
    exact run_phoneRegex_zero []
  | cons c cs =>
    simp only [matchFrom, matchFrom_phoneRegex_pos cs 1 (by omega), Bool.or_false]
    exact run_phoneRegex_zero (c :: cs)

/-- C10: `ValidatePhoneNumber` returns `nil` exactly on the strings that are
`+`, one digit `1`-`9`, then 1 to 14 digits `0`-`9` and nothing else, and on
every other string it returns the error "invalid phone number format". -/
theorem ValidatePhoneNumber_iff_E164 (s : String) :
    (ValidatePhoneNumber s = none ↔
      ∃ d ds, s.data = '+' :: d :: ds ∧ '1'.toNat ≤ d.toNat ∧ d.toNat ≤ '9'.toNat ∧
        1 ≤ ds.length ∧ ds.length ≤ 14 ∧
        ∀ c ∈ ds, '0'.toNat ≤ c.toNat ∧ c.toNat ≤ '9'.toNat) ∧
    (ValidatePhoneNumber s = none ↔ isE164 s.data = true) ∧
    (ValidatePhoneNumber s ≠ none →
      ValidatePhoneNumber s = some "invalid phone number format") := by
  have key : ValidatePhoneNumber s = none ↔ isE164 s.data = true := by
    unfold ValidatePhoneNumber
    rw [MatchString_phoneRegex]
    cases isE164 s.data <;> simp
  refine ⟨by rw [key, isE164_iff], key, ?_⟩
  unfold ValidatePhoneNumber
  cases phoneRegex.MatchString s <;> simp

end LocationAgent
